import Mathlib

/-!
Shallow embedding of the route-planning core of the
`shopify-delivery-routing` repository
(`src/delivery_routing/route_planner.py` and the assembly logic of
`src/delivery_routing/main.py`), together with theorems settling the
frozen claims about its specification.

Modelling conventions:
* Python floats that carry coordinate data are modelled as exact
  rationals (`ℚ`); distances computed by the trigonometric haversine
  formula live in `ℝ`.
* The nullable coordinate fields `latitude`/`longitude` of the
  `DeliveryAddress` dataclass become `Option ℚ`.
* Code that can raise (`nearest_neighbour_route` raising `ValueError`)
  returns an `Option`; `none` is the raised error.
* Python list indexing, which wraps negative indices, is embedded by
  `pyGetD`/`pySet`; every reachable index is proved to be in range, so
  the `getD` fallback value is never relevant.
-/

/-- Embeds the `DeliveryAddress` dataclass of
`src/delivery_routing/shopify_client.py`, which is the class imported by
`route_planner.py` (`from delivery_routing.shopify_client import
DeliveryAddress`).  Fields are in source order; coordinates are nullable. -/
structure DeliveryAddress where
  order_id : Int
  order_name : String
  name : String
  address1 : String
  address2 : String
  city : String
  province : String
  country : String
  zip_code : String
  phone : String
  latitude : Option ℚ
  longitude : Option ℚ
deriving DecidableEq

instance : Inhabited DeliveryAddress :=
  ⟨⟨0, "", "", "", "", "", "", "", "", "", none, none⟩⟩

/-- Embeds `_EARTH_RADIUS_KM = 6371.0` of `route_planner.py`. -/
def _EARTH_RADIUS_KM : ℝ := 6371

/-- Embeds `math.radians`: degrees to radians, `x * pi / 180`. -/
noncomputable def radians (x : ℝ) : ℝ := x * Real.pi / 180

/-- Embeds `math.atan2 y x`: the two-argument arctangent, by the usual
quadrant case split (with `atan2 0 0 = 0`, as in CPython). -/
noncomputable def atan2 (y x : ℝ) : ℝ :=
  if 0 < x then Real.arctan (y / x)
  else if x < 0 ∧ 0 ≤ y then Real.arctan (y / x) + Real.pi
  else if x < 0 ∧ y < 0 then Real.arctan (y / x) - Real.pi
  else if x = 0 ∧ 0 < y then Real.pi / 2
  else if x = 0 ∧ y < 0 then -(Real.pi / 2)
  else 0

/-- Embeds `haversine(lat1, lon1, lat2, lon2)` of `route_planner.py`:
great-circle distance in km between two points given in degrees. -/
noncomputable def haversine (lat1 lon1 lat2 lon2 : ℝ) : ℝ :=
  let rlat1 := radians lat1
  let rlon1 := radians lon1
  let rlat2 := radians lat2
  let rlon2 := radians lon2
  let dlat := rlat2 - rlat1
  let dlon := rlon2 - rlon1
  let a := Real.sin (dlat / 2) ^ 2 +
    Real.cos rlat1 * Real.cos rlat2 * Real.sin (dlon / 2) ^ 2
  _EARTH_RADIUS_KM * 2 * atan2 (Real.sqrt a) (Real.sqrt (1 - a))

/-- Embeds the Python expression `v or 0.0` applied to a nullable float
`v`: `None or 0.0` evaluates to `0.0`, `0.0 or 0.0` to `0.0` (zero is
falsy), and any nonzero float is returned unchanged.  Numerically this
is exactly `Option.getD v 0`. -/
def pyOr0 (v : Option ℚ) : ℚ := v.getD 0

/-- Python list read `l[i]` with wrapping of negative indices
(`l[-1]` is the last element).  Out-of-range reads raise `IndexError`
in Python; they are unreachable in this development (every index used
is proved in range), so a default is returned instead. -/
def pyGetD {α : Type} (l : List α) (i : Int) (d : α) : α :=
  if 0 ≤ i then l.getD i.toNat d else l.getD (l.length - (-i).toNat) d

/-- Python list write `l[i] = a` with wrapping of negative indices. -/
def pySet {α : Type} (l : List α) (i : Int) (a : α) : List α :=
  if 0 ≤ i then l.set i.toNat a else l.set (l.length - (-i).toNat) a

/-- Reads entry `(i, j)` of a distance matrix represented as a list of
rows (used only to state theorems about `_build_distance_matrix`). -/
def mGet (m : List (List ℝ)) (i j : ℕ) : ℝ := (m.getD i []).getD j 0

/-- Embeds `_build_distance_matrix` of `route_planner.py`.  The source
initialises an `n × n` matrix of `0.0` and, for every pair `i < j`,
computes `d = haversine(addresses[i].latitude or 0.0, ...)` once and
writes it to both `matrix[i][j]` and `matrix[j][i]`.  The resulting
matrix therefore has entry `0` on the diagonal and, at `(i, j)` with
`i ≠ j`, the haversine distance between the addresses at positions
`min i j` and `max i j` (coordinates defaulted by `or 0.0`); this
definition writes those final entries directly. -/
noncomputable def _build_distance_matrix (addresses : List DeliveryAddress) :
    List (List ℝ) :=
  let n := addresses.length
  (List.range n).map fun i =>
    (List.range n).map fun j =>
      if i = j then 0
      else
        let p := addresses.getD (min i j) default
        let q := addresses.getD (max i j) default
        haversine (pyOr0 p.latitude : ℚ) (pyOr0 p.longitude : ℚ)
          (pyOr0 q.latitude : ℚ) (pyOr0 q.longitude : ℚ)

/-- Embeds the body of the inner scan of `nearest_neighbour_route`:
`if not visited[j] and matrix[current][j] < best_dist: best_dist, best_idx = ...`.
The running best distance is `none` while still at the initial
`float("inf")` (any finite distance beats it). -/
noncomputable def scanStep (row : List ℝ) (visited : List Bool)
    (best : Option ℝ × Int) (j : ℕ) : Option ℝ × Int :=
  if visited.getD j true then best
  else
    match best.1 with
    | none => (some (row.getD j 0), (j : Int))
    | some b =>
      if row.getD j 0 < b then (some (row.getD j 0), (j : Int)) else best

/-- Embeds the inner `for j in range(n)` scan of
`nearest_neighbour_route`, starting from `best_dist = float("inf")`,
`best_idx = -1`. -/
noncomputable def selectNearest (row : List ℝ) (visited : List Bool) (n : ℕ) :
    Option ℝ × Int :=
  (List.range n).foldl (scanStep row visited) (none, -1)

/-- Embeds one iteration of the outer `for _ in range(n - 1)` loop of
`nearest_neighbour_route`: read `current = route_indices[-1]`, scan the
row `matrix[current]`, then `visited[best_idx] = True` and
`route_indices.append(best_idx)`. -/
noncomputable def nnStep (matrix : List (List ℝ)) (n : ℕ)
    (st : List Bool × List Int) : List Bool × List Int :=
  let current := pyGetD st.2 (-1) 0
  let row := pyGetD matrix current []
  let best := selectNearest row st.1 n
  (pySet st.1 best.2 true, st.2 ++ [best.2])

/-- Embeds the outer loop of `nearest_neighbour_route`, iterated `k`
times. -/
noncomputable def nnLoop (matrix : List (List ℝ)) (n : ℕ) :
    ℕ → List Bool × List Int → List Bool × List Int
  | 0, st => st
  | k + 1, st => nnLoop matrix n k (nnStep matrix n st)

/-- The list `route_indices` computed by `nearest_neighbour_route` after
the outer loop: seeded with `[start_index]`, `visited[start_index]`
marked, then `n - 1` iterations of the scan-and-append step. -/
noncomputable def nnRouteIndices (addresses : List DeliveryAddress)
    (start_index : Int) : List Int :=
  let n := addresses.length
  let matrix := _build_distance_matrix addresses
  let visited := pySet (List.replicate n false) start_index true
  (nnLoop matrix n (n - 1) (visited, [start_index])).2

/-- Embeds `nearest_neighbour_route` of `route_planner.py`.  An empty
input returns `[]` before any validation; a `start_index` outside
`[0, n)` raises `ValueError` (modelled as `none`); otherwise the
route is `[addresses[i] for i in route_indices]`. -/
noncomputable def nearest_neighbour_route (addresses : List DeliveryAddress)
    (start_index : Int := 0) : Option (List DeliveryAddress) :=
  if addresses.isEmpty then some []
  else if start_index < 0 ∨ (addresses.length : Int) ≤ start_index then none
  else some ((nnRouteIndices addresses start_index).map fun i =>
    pyGetD addresses i default)

/-- Embeds `total_route_distance` of `route_planner.py`:
`total = 0.0`, then for `i in range(len(addresses) - 1)` add
`haversine(addresses[i].latitude or 0.0, ..., addresses[i+1].longitude or 0.0)`. -/
noncomputable def total_route_distance (addresses : List DeliveryAddress) : ℝ :=
  (List.range (addresses.length - 1)).foldl
    (fun total i =>
      total + haversine (pyOr0 (addresses.getD i default).latitude : ℚ)
        (pyOr0 (addresses.getD i default).longitude : ℚ)
        (pyOr0 (addresses.getD (i + 1) default).latitude : ℚ)
        (pyOr0 (addresses.getD (i + 1) default).longitude : ℚ))
    0

/-- Python truthiness of a nullable float: `None` and `0.0` are falsy,
every other float is truthy. -/
def pyTruthy (v : Option ℚ) : Bool :=
  match v with
  | none => false
  | some x => x != 0

/-- Truthiness of the Python expression `a.latitude and a.longitude`
(the filter condition of `main.py` line 185): truthy iff both operands
are truthy. -/
def coordsTruthy (a : DeliveryAddress) : Bool :=
  pyTruthy a.latitude && pyTruthy a.longitude

/-- Embeds `routable = [a for a in addresses if a.latitude and a.longitude]`
(`main.py` line 185). -/
def routable (addresses : List DeliveryAddress) : List DeliveryAddress :=
  addresses.filter coordsTruthy

/-- Embeds `unroutable = [a for a in addresses if not (a.latitude and a.longitude)]`
(`main.py` line 186). -/
def unroutable (addresses : List DeliveryAddress) : List DeliveryAddress :=
  addresses.filter fun a => !coordsTruthy a

/-- Embeds the assembly logic of `main` (`main.py` lines 196-204): when
`routable` is non-empty, plan it with `nearest_neighbour_route` (default
`start_index = 0`) and aggregate with `total_route_distance`; otherwise
`planned = []`, `total_km = 0.0`; finally `full_route = planned + unroutable`.
The result pairs the full route with the total distance; `none` models a
propagating exception from the planner (proved unreachable here). -/
noncomputable def planAndAssemble (addresses : List DeliveryAddress) :
    Option (List DeliveryAddress × ℝ) :=
  let r := routable addresses
  let u := unroutable addresses
  if r.isEmpty then some (([] : List DeliveryAddress) ++ u, 0)
  else
    match nearest_neighbour_route r 0 with
    | none => none
    | some planned => some (planned ++ u, total_route_distance planned)

/-- Modelled from the spec words for the Route Distance Aggregator
(spec section 4.4): the "sum of the Distance Metric applied to each
consecutive pair in the sequence", on the list of (latitude, longitude)
coordinate pairs of geocoded stops; "Returns 0 for sequences of length
0 or 1".  Used as the specification side of claim C7. -/
noncomputable def specConsecutiveSum : List (ℚ × ℚ) → ℝ
  | [] => 0
  | [_] => 0
  | p :: q :: rest =>
    haversine (p.1 : ℚ) (p.2 : ℚ) (q.1 : ℚ) (q.2 : ℚ) +
      specConsecutiveSum (q :: rest)

/-- Consecutive-pair recursion for `total_route_distance` on the code
side (same `or 0.0` coordinate defaulting as the source); proved equal
to the indexed-loop embedding below. -/
noncomputable def pairRec : List DeliveryAddress → ℝ
  | [] => 0
  | [_] => 0
  | a :: b :: rest =>
    haversine (pyOr0 a.latitude : ℚ) (pyOr0 a.longitude : ℚ)
      (pyOr0 b.latitude : ℚ) (pyOr0 b.longitude : ℚ) + pairRec (b :: rest)

/-- A stop whose latitude is present but zero (a point on the equator)
and whose longitude is present and nonzero; used to separate presence
from Python truthiness. -/
def zeroLatAddr : DeliveryAddress :=
  ⟨2, "", "", "", "", "", "", "", "", "", some 0, some 1⟩

/-- A stop with an absent latitude and a present longitude (not
geocoded). -/
def noLatAddr : DeliveryAddress :=
  ⟨3, "", "", "", "", "", "", "", "", "", none, some 1⟩

/-- A geocoded stop at latitude 1, longitude 1. -/
def oneOneAddr : DeliveryAddress :=
  ⟨1, "", "", "", "", "", "", "", "", "", some 1, some 1⟩

/-- A geocoded stop at latitude 2, longitude 2. -/
def twoTwoAddr : DeliveryAddress :=
  ⟨4, "", "", "", "", "", "", "", "", "", some 2, some 2⟩

/-- Loop invariant of the outer nearest-neighbour loop, on the state
`(visited, route_indices)`: the visited array keeps length `n`, the
route is non-empty, every recorded index lies in `[0, n)`, the recorded
indices are pairwise distinct, and a stop is marked visited exactly when
its index is on the route. -/
def NNInv (n : ℕ) (st : List Bool × List Int) : Prop :=
  st.1.length = n ∧
  st.2 ≠ [] ∧
  (∀ i ∈ st.2, 0 ≤ i ∧ i < (n : Int)) ∧
  (st.2.map Int.toNat).Nodup ∧
  (∀ j, j < n → (st.1.getD j true = true ↔ (j : Int) ∈ st.2))

theorem pyGetD_nonneg {α : Type} (l : List α) (i : Int) (d : α) (h : 0 ≤ i) :
    pyGetD l i d = l.getD i.toNat d := by
  simp [pyGetD, h]

theorem pySet_nonneg {α : Type} (l : List α) (i : Int) (a : α) (h : 0 ≤ i) :
    pySet l i a = l.set i.toNat a := by
  simp [pySet, h]

theorem getD_set_self (l : List Bool) (i : ℕ) (a : Bool) (h : i < l.length) :
    (l.set i a).getD i true = a := by
  simp [List.getD, List.getElem?_set_self, h]

theorem getD_set_ne {α : Type} (l : List α) (i j : ℕ) (a d : α) (h : i ≠ j) :
    (l.set i a).getD j d = l.getD j d := by
  simp [List.getD, List.getElem?_set_ne h]

theorem getD_replicate_false (n j : ℕ) (hj : j < n) :
    (List.replicate n false).getD j true = false := by
  simp [List.getD, List.getElem?_replicate, hj]

theorem foldl_add_eq_sum (f : ℕ → ℝ) :
    ∀ (l : List ℕ) (c : ℝ), l.foldl (fun t i => t + f i) c = c + (l.map f).sum := by
  intro l
  induction l with
  | nil => intro c; simp
  | cons a l ih => intro c; simp [ih, add_assoc]

theorem range_map_getD {α : Type} (l : List α) (d : α) :
    (List.range l.length).map (fun i => l.getD i d) = l := by
  induction l with
  | nil => simp
  | cons a l ih =>
    rw [List.length_cons, List.range_succ_eq_map, List.map_cons, List.map_map]
    have hcomp : ((fun i => (a :: l).getD i d) ∘ Nat.succ) = fun i => l.getD i d := by
      funext i
      simp [List.getD]
    rw [hcomp, ih]
    rfl

theorem scanStep_visited (row : List ℝ) (visited : List Bool) (best : Option ℝ × Int)
    (j : ℕ) (h : visited.getD j true = true) : scanStep row visited best j = best := by
  unfold scanStep
  rw [h]
  simp

theorem scanStep_unvisited_none (row : List ℝ) (visited : List Bool) (i : Int) (j : ℕ)
    (h : visited.getD j true = false) :
    scanStep row visited (none, i) j = (some (row.getD j 0), (j : Int)) := by
  unfold scanStep
  rw [h]
  simp

theorem scanStep_unvisited_lt (row : List ℝ) (visited : List Bool) (b : ℝ) (i : Int)
    (j : ℕ) (h : visited.getD j true = false) (hlt : row.getD j 0 < b) :
    scanStep row visited (some b, i) j = (some (row.getD j 0), (j : Int)) := by
  unfold scanStep
  rw [h]
  generalize hx : row.getD j 0 = x
  rw [hx] at hlt
  simp [hlt]

theorem scanStep_unvisited_ge (row : List ℝ) (visited : List Bool) (b : ℝ) (i : Int)
    (j : ℕ) (h : visited.getD j true = false) (hge : ¬ row.getD j 0 < b) :
    scanStep row visited (some b, i) j = (some b, i) := by
  unfold scanStep
  rw [h]
  generalize hx : row.getD j 0 = x
  rw [hx] at hge
  simp [hge]

theorem scanFold_char (row : List ℝ) (visited : List Bool) :
    ∀ m : ℕ,
      ((List.range m).foldl (scanStep row visited) (none, -1) =
          ((none : Option ℝ), (-1 : Int)) ∧
        ∀ j, j < m → visited.getD j true = true) ∨
      (∃ (jn : ℕ) (d : ℝ), (List.range m).foldl (scanStep row visited) (none, -1) =
          (some d, (jn : Int)) ∧
        jn < m ∧ visited.getD jn true = false ∧ d = row.getD jn 0 ∧
        (∀ k, k < m → visited.getD k true = false → d ≤ row.getD k 0) ∧
        (∀ k, k < jn → visited.getD k true = false → d < row.getD k 0)) := by
  intro m
  induction m with
  | zero => exact Or.inl ⟨rfl, by omega⟩
  | succ m ih =>
    rw [List.range_succ, List.foldl_append, List.foldl_cons, List.foldl_nil]
    rcases ih with ⟨heq, hall⟩ | ⟨jn, d, heq, hjn, hv, hd, hmin, hfirst⟩
    · rw [heq]
      cases hm : visited.getD m true with
      | true =>
        left
        refine ⟨scanStep_visited row visited _ m hm, ?_⟩
        intro j hj
        rcases Nat.lt_succ_iff_lt_or_eq.mp hj with h | h
        · exact hall j h
        · exact h ▸ hm
      | false =>
        right
        refine ⟨m, row.getD m 0, scanStep_unvisited_none row visited _ m hm,
          Nat.lt_succ_self m, hm, rfl, ?_, ?_⟩
        · intro k hk hv'
          rcases Nat.lt_succ_iff_lt_or_eq.mp hk with h | h
          · rw [hall k h] at hv'
            exact absurd hv' (by decide)
          · exact h ▸ le_refl _
        · intro k hk hv'
          rw [hall k hk] at hv'
          exact absurd hv' (by decide)
    · rw [heq]
      cases hm : visited.getD m true with
      | true =>
        right
        refine ⟨jn, d, scanStep_visited row visited _ m hm,
          Nat.lt_succ_of_lt hjn, hv, hd, ?_, hfirst⟩
        intro k hk hv'
        rcases Nat.lt_succ_iff_lt_or_eq.mp hk with h | h
        · exact hmin k h hv'
        · rw [h, hm] at hv'
          exact absurd hv' (by decide)
      | false =>
        by_cases hcmp : row.getD m 0 < d
        · right
          refine ⟨m, row.getD m 0, scanStep_unvisited_lt row visited d _ m hm hcmp,
            Nat.lt_succ_self m, hm, rfl, ?_, ?_⟩
          · intro k hk hv'
            rcases Nat.lt_succ_iff_lt_or_eq.mp hk with h | h
            · exact le_of_lt (lt_of_lt_of_le hcmp (hmin k h hv'))
            · exact h ▸ le_refl _
          · intro k hk hv'
            exact lt_of_lt_of_le hcmp (hmin k hk hv')
        · right
          refine ⟨jn, d, scanStep_unvisited_ge row visited d _ m hm hcmp,
            Nat.lt_succ_of_lt hjn, hv, hd, ?_, hfirst⟩
          intro k hk hv'
          rcases Nat.lt_succ_iff_lt_or_eq.mp hk with h | h
          · exact hmin k h hv'
          · exact h ▸ (not_lt.mp hcmp)

theorem selectNearest_found (row : List ℝ) (visited : List Bool) (n : ℕ)
    (h : ∃ j, j < n ∧ visited.getD j true = false) :
    ∃ (jn : ℕ) (d : ℝ), selectNearest row visited n = (some d, (jn : Int)) ∧
      jn < n ∧ visited.getD jn true = false ∧ d = row.getD jn 0 ∧
      (∀ k, k < n → visited.getD k true = false → d ≤ row.getD k 0) ∧
      (∀ k, k < jn → visited.getD k true = false → d < row.getD k 0) := by
  rcases scanFold_char row visited n with ⟨_, hall⟩ | hfound
  · obtain ⟨j, hj, hv⟩ := h
    rw [hall j hj] at hv
    exact absurd hv (by decide)
  · exact hfound

theorem exists_unvisited (n : ℕ) (st : List Bool × List Int) (hInv : NNInv n st)
    (hlen : st.2.length < n) : ∃ j, j < n ∧ st.1.getD j true = false := by
  by_contra hc
  push_neg at hc
  have hsub : List.range n ⊆ st.2.map Int.toNat := by
    intro j hj
    rw [List.mem_range] at hj
    have ht : st.1.getD j true = true := by
      cases h : st.1.getD j true
      · exact absurd h (hc j hj)
      · rfl
    have hmem : (j : Int) ∈ st.2 := (hInv.2.2.2.2 j hj).mp ht
    exact List.mem_map.mpr ⟨(j : Int), hmem, Int.toNat_natCast j⟩
  have hsp : List.Subperm (List.range n) (st.2.map Int.toNat) :=
    (List.nodup_range n).subperm hsub
  have hle := hsp.length_le
  simp only [List.length_range, List.length_map] at hle
  omega

theorem nnStep_inv (matrix : List (List ℝ)) (n : ℕ) (st : List Bool × List Int)
    (hInv : NNInv n st) (hlen : st.2.length < n) :
    NNInv n (nnStep matrix n st) ∧
      (nnStep matrix n st).2.length = st.2.length + 1 := by
  obtain ⟨hvlen, hne, hbound, hnd, hiff⟩ := hInv
  obtain ⟨jn, d, hsel, hjn, hv, -, -, -⟩ :=
    selectNearest_found (pyGetD matrix (pyGetD st.2 (-1) 0) []) st.1 n
      (exists_unvisited n st ⟨hvlen, hne, hbound, hnd, hiff⟩ hlen)
  have hstep : nnStep matrix n st = (pySet st.1 (jn : Int) true, st.2 ++ [(jn : Int)]) := by
    simp only [nnStep]
    rw [hsel]
  rw [hstep]
  have hset : pySet st.1 (jn : Int) true = st.1.set jn true := by
    rw [pySet_nonneg _ _ _ (Int.natCast_nonneg jn), Int.toNat_natCast]
  constructor
  · refine ⟨?_, by simp, ?_, ?_, ?_⟩
    · rw [hset]
      simp [hvlen]
    · intro i hi
      rcases List.mem_append.mp hi with h | h
      · exact hbound i h
      · rw [List.mem_singleton.mp h]
        exact ⟨Int.natCast_nonneg jn, by exact_mod_cast hjn⟩
    · rw [List.map_append]
      rw [List.nodup_append]
      refine ⟨hnd, by simp, ?_⟩
      intro x hx hx'
      simp only [List.map_cons, List.map_nil, Int.toNat_natCast, List.mem_singleton] at hx'
      rw [hx'] at hx
      obtain ⟨i, hi, hitn⟩ := List.mem_map.mp hx
      have h0 : 0 ≤ i := (hbound i hi).1
      have hieq : i = (jn : Int) := by omega
      rw [hieq] at hi
      have hvt := (hiff jn hjn).mpr hi
      rw [hvt] at hv
      exact absurd hv (by decide)
    · intro j hj
      rw [hset]
      by_cases hjeq : j = jn
      · subst hjeq
        rw [getD_set_self _ _ _ (by omega : j < st.1.length)]
        simp
      · rw [getD_set_ne _ _ _ _ _ (fun h => hjeq h.symm)]
        rw [hiff j hj]
        constructor
        · intro h
          exact List.mem_append.mpr (Or.inl h)
        · intro h
          rcases List.mem_append.mp h with h | h
          · exact h
          · have hj2 : j = jn := by exact_mod_cast List.mem_singleton.mp h
            exact absurd hj2 hjeq
  · simp

theorem nnLoop_inv (matrix : List (List ℝ)) (n : ℕ) :
    ∀ (k : ℕ) (st : List Bool × List Int), NNInv n st → st.2.length + k ≤ n →
      NNInv n (nnLoop matrix n k st) ∧
        (nnLoop matrix n k st).2.length = st.2.length + k := by
  intro k
  induction k with
  | zero =>
    intro st h _
    exact ⟨h, by simp [nnLoop]⟩
  | succ k ih =>
    intro st hInv hle
    have hlt : st.2.length < n := by omega
    obtain ⟨hInv1, hlen1⟩ := nnStep_inv matrix n st hInv hlt
    obtain ⟨hInv2, hlen2⟩ := ih (nnStep matrix n st) hInv1 (by omega)
    have hstep : nnLoop matrix n (k + 1) st = nnLoop matrix n k (nnStep matrix n st) := rfl
    rw [hstep]
    exact ⟨hInv2, by omega⟩

theorem init_inv (n : ℕ) (s : Int) (h0 : 0 ≤ s) (hs : s < (n : Int)) :
    NNInv n (pySet (List.replicate n false) s true, [s]) := by
  have hsn : s.toNat < n := by omega
  rw [pySet_nonneg _ _ _ h0]
  refine ⟨by simp, by simp, ?_, by simp, ?_⟩
  · intro i hi
    rw [List.mem_singleton.mp hi]
    exact ⟨h0, hs⟩
  · intro j hj
    by_cases hjs : j = s.toNat
    · subst hjs
      rw [getD_set_self _ _ _ (by simp; omega)]
      simp [Int.toNat_of_nonneg h0]
    · rw [getD_set_ne _ _ _ _ _ (fun h => hjs h.symm)]
      rw [getD_replicate_false n j hj]
      simp only [List.mem_singleton]
      constructor
      · intro h
        exact absurd h (by decide)
      · intro h
        exact absurd (by omega : j = s.toNat) hjs

theorem nnRouteIndices_spec (addresses : List DeliveryAddress) (s : Int)
    (h0 : 0 ≤ s) (hs : s < (addresses.length : Int)) :
    (nnRouteIndices addresses s).length = addresses.length ∧
    (∀ i ∈ nnRouteIndices addresses s, 0 ≤ i ∧ i < (addresses.length : Int)) ∧
    List.Perm ((nnRouteIndices addresses s).map Int.toNat)
      (List.range addresses.length) := by
  have hInv0 := init_inv addresses.length s h0 hs
  have hlen0 : ([s] : List Int).length = 1 := rfl
  obtain ⟨hInvF, hlenF⟩ := nnLoop_inv (_build_distance_matrix addresses)
    addresses.length (addresses.length - 1) _ hInv0 (by simp; omega)
  have hR : nnRouteIndices addresses s =
      (nnLoop (_build_distance_matrix addresses) addresses.length
        (addresses.length - 1)
        (pySet (List.replicate addresses.length false) s true, [s])).2 := rfl
  have hn1 : 1 ≤ addresses.length := by omega
  rw [hR]
  refine ⟨by rw [hlenF]; simp; omega, hInvF.2.2.1, ?_⟩
  have hnd := hInvF.2.2.2.1
  have hb := hInvF.2.2.1
  have hsub : (List.map Int.toNat
      (nnLoop (_build_distance_matrix addresses) addresses.length
        (addresses.length - 1)
        (pySet (List.replicate addresses.length false) s true, [s])).2) ⊆
      List.range addresses.length := by
    intro x hx
    obtain ⟨i, hi, hitn⟩ := List.mem_map.mp hx
    obtain ⟨hi0, hin⟩ := hb i hi
    rw [List.mem_range]
    omega
  have hsp := hnd.subperm hsub
  refine hsp.perm_of_length_le ?_
  rw [List.length_range, List.length_map, hlenF]
  simp
  omega

theorem nnr_some_perm (addresses : List DeliveryAddress) (s : Int)
    (h0 : 0 ≤ s) (hs : s < (addresses.length : Int)) :
    ∃ r, nearest_neighbour_route addresses s = some r ∧ List.Perm r addresses := by
  have hne : addresses.isEmpty = false := by
    cases addresses with
    | nil => simp at hs; omega
    | cons a l => rfl
  obtain ⟨hlenR, hbR, hpermR⟩ := nnRouteIndices_spec addresses s h0 hs
  refine ⟨(nnRouteIndices addresses s).map (fun i => pyGetD addresses i default), ?_, ?_⟩
  · unfold nearest_neighbour_route
    rw [hne]
    simp only [Bool.false_eq_true, if_false]
    rw [if_neg (by push_neg; omega)]
  · have hmapeq : (nnRouteIndices addresses s).map (fun i => pyGetD addresses i default) =
        ((nnRouteIndices addresses s).map Int.toNat).map
          (fun j => addresses.getD j default) := by
      rw [List.map_map]
      apply List.map_congr_left
      intro i hi
      have h0i := (hbR i hi).1
      simp only [Function.comp]
      rw [pyGetD_nonneg _ _ _ h0i]
    rw [hmapeq]
    have hp := hpermR.map (fun j => addresses.getD j default)
    rw [range_map_getD addresses default] at hp
    exact hp

/-- C1: for every input list of stops (any length, zero included) and
every valid `start_index` (any `start_index` at all when the input is
empty, since the source returns `[]` before validating),
`nearest_neighbour_route` succeeds and its output is a permutation of
the input: it contains every input stop exactly once and its length
equals the input length. -/
theorem nearest_neighbour_route_perm (addresses : List DeliveryAddress)
    (start_index : Int)
    (h : addresses = [] ∨
      (0 ≤ start_index ∧ start_index < (addresses.length : Int))) :
    ∃ r, nearest_neighbour_route addresses start_index = some r ∧
      List.Perm r addresses ∧ r.length = addresses.length := by
  rcases h with h | ⟨h0, hs⟩
  · subst h
    exact ⟨[], rfl, List.Perm.refl [], rfl⟩
  · obtain ⟨r, hr, hperm⟩ := nnr_some_perm addresses start_index h0 hs
    exact ⟨r, hr, hperm, hperm.length_eq⟩

/-- Witness for C1 at a concrete two-stop input with start index 1. -/
theorem nearest_neighbour_route_perm_witness :
    ∃ r, nearest_neighbour_route [oneOneAddr, twoTwoAddr] 1 = some r ∧
      List.Perm r [oneOneAddr, twoTwoAddr] ∧
      r.length = ([oneOneAddr, twoTwoAddr] : List DeliveryAddress).length :=
  nearest_neighbour_route_perm [oneOneAddr, twoTwoAddr] 1
    (Or.inr ⟨by norm_num, by norm_num⟩)

/-- C10: for every non-empty input and valid `start_index`, every index
recorded by the nearest-neighbour loop (the internal `route_indices`
list) lies in `[0, n)`: each iteration of the selection scan finds an
unvisited stop (every matrix entry is a real number, so it beats the
infinite initial best distance), hence the `-1` sentinel of `best_idx`
never survives a scan and never indexes `visited` or the route
(every recorded index is nonnegative, so never `-1`). -/
theorem nnRouteIndices_in_range (addresses : List DeliveryAddress)
    (start_index : Int) (h0 : 0 ≤ start_index)
    (hs : start_index < (addresses.length : Int)) :
    ∀ i ∈ nnRouteIndices addresses start_index,
      0 ≤ i ∧ i < (addresses.length : Int) :=
  (nnRouteIndices_spec addresses start_index h0 hs).2.1

/-- Witness for C10 at a concrete one-stop input. -/
theorem nnRouteIndices_in_range_witness :
    0 ≤ (0 : Int) ∧
      (0 : Int) < (([oneOneAddr] : List DeliveryAddress).length : Int) :=
  nnRouteIndices_in_range [oneOneAddr] 0 (by norm_num) (by norm_num) 0
    (by rw [show nnRouteIndices [oneOneAddr] 0 = [0] from rfl]; simp)

/-- C9: the planner never mutates a stop or its input list.  The source
of `nearest_neighbour_route` and `total_route_distance` assigns only to
the call-local `visited`, `matrix`, `route_indices` and `total`
variables and never to a stop attribute or to an input list slot, so
the faithful embedding is a pure function of immutable values.
Correspondingly, every stop in a returned route is (identically, with
every field including its coordinates unchanged) an element of the
input list. -/
theorem route_stops_are_input_stops (addresses : List DeliveryAddress)
    (start_index : Int) (r : List DeliveryAddress)
    (h : nearest_neighbour_route addresses start_index = some r) :
    ∀ a ∈ r, a ∈ addresses := by
  cases haddr : addresses.isEmpty with
  | true =>
    have hnil : addresses = [] := List.isEmpty_iff.mp haddr
    subst hnil
    unfold nearest_neighbour_route at h
    simp only [List.isEmpty_nil, if_true, Option.some.injEq] at h
    subst h
    intro a ha
    exact absurd ha (List.not_mem_nil a)
  | false =>
    by_cases hvalid : start_index < 0 ∨ (addresses.length : Int) ≤ start_index
    · unfold nearest_neighbour_route at h
      rw [haddr] at h
      simp only [Bool.false_eq_true, if_false] at h
      rw [if_pos hvalid] at h
      exact absurd h (by simp)
    · push_neg at hvalid
      obtain ⟨r2, hr2, hperm⟩ := nnr_some_perm addresses start_index hvalid.1 hvalid.2
      rw [hr2, Option.some.injEq] at h
      subst h
      intro a ha
      exact hperm.mem_iff.mp ha

/-- Witness for C9 at a concrete one-stop input. -/
theorem route_stops_are_input_stops_witness :
    oneOneAddr ∈ ([oneOneAddr] : List DeliveryAddress) :=
  route_stops_are_input_stops [oneOneAddr] 0 [oneOneAddr] rfl oneOneAddr
    (List.mem_singleton_self oneOneAddr)

/-- C5: `nearest_neighbour_route` fails (the `ValueError`, modelled as
`none`) exactly when the input is non-empty and `start_index` is
outside `[0, n)`, and then no partial result is produced; an empty
input returns the empty route for every `start_index`, because the
source returns `[]` before validating. -/
theorem nearest_neighbour_route_error_iff (addresses : List DeliveryAddress)
    (start_index : Int) :
    (addresses = [] → nearest_neighbour_route addresses start_index = some []) ∧
    (addresses ≠ [] →
      (nearest_neighbour_route addresses start_index = none ↔
        start_index < 0 ∨ (addresses.length : Int) ≤ start_index)) := by
  constructor
  · intro h
    subst h
    rfl
  · intro hne
    have hemp : addresses.isEmpty = false := by
      cases addresses with
      | nil => exact absurd rfl hne
      | cons a l => rfl
    unfold nearest_neighbour_route
    rw [hemp]
    simp only [Bool.false_eq_true, if_false]
    by_cases hv : start_index < 0 ∨ (addresses.length : Int) ≤ start_index
    · rw [if_pos hv]
      simp [hv]
    · rw [if_neg hv]
      simp [hv]

/-- Witness for C5: a one-stop input with out-of-range index 5 raises;
the empty input with negative index returns the empty route. -/
theorem nearest_neighbour_route_error_iff_witness :
    nearest_neighbour_route [oneOneAddr] 5 = none ∧
    nearest_neighbour_route ([] : List DeliveryAddress) (-3) = some [] :=
  ⟨((nearest_neighbour_route_error_iff [oneOneAddr] 5).2 (by simp)).mpr
      (Or.inr (by norm_num)),
    (nearest_neighbour_route_error_iff [] (-3)).1 rfl⟩

/-- C4: each iteration of the outer loop selects its next stop with the
embedded inner scan `selectNearest` (the body of `nnStep`), which walks
the stops in ascending original-index order and replaces the best
candidate only on strictly smaller distance.  When two unvisited stops
are equidistant from the current stop at the minimal distance, the scan
returns the lowest-index one, deterministically. -/
theorem selectNearest_tie_break (row : List ℝ) (visited : List Bool)
    (n j1 j2 : ℕ) (h1n : j1 < n) (h2n : j2 < n) (h12 : j1 < j2)
    (hv1 : visited.getD j1 true = false) (hv2 : visited.getD j2 true = false)
    (heq : row.getD j1 0 = row.getD j2 0)
    (hmin : ∀ k, k < n → visited.getD k true = false →
      row.getD j1 0 ≤ row.getD k 0)
    (hlow : ∀ k, k < n → visited.getD k true = false →
      row.getD k 0 = row.getD j1 0 → j1 ≤ k) :
    (selectNearest row visited n).2 = (j1 : Int) := by
  obtain ⟨jn, d, hsel, hjn, hv, hd, hminF, hfirst⟩ :=
    selectNearest_found row visited n ⟨j1, h1n, hv1⟩
  have hle : d ≤ row.getD j1 0 := hminF j1 h1n hv1
  have hge : row.getD j1 0 ≤ d := by
    rw [hd]
    exact hmin jn hjn hv
  have hdj1 : d = row.getD j1 0 := le_antisymm hle hge
  have hj1jn : j1 ≤ jn := hlow jn hjn hv (by rw [← hd, hdj1])
  have hjnj1 : ¬ j1 < jn := by
    intro hlt
    have hc := hfirst j1 hlt hv1
    rw [hdj1] at hc
    exact lt_irrefl _ hc
  have hfin : jn = j1 := by omega
  rw [hsel]
  simp [hfin]

/-- Witness for C4: stops 1 and 2 both at distance 5 from the current
stop, stop 0 already visited; the scan selects stop 1. -/
theorem selectNearest_tie_break_witness :
    (selectNearest [0, 5, 5] [true, false, false] 3).2 = (1 : Int) := by
  apply selectNearest_tie_break ([0, 5, 5] : List ℝ) [true, false, false] 3 1 2
    (by norm_num) (by norm_num) (by norm_num) (by simp) (by simp)
    (by norm_num [List.getD_cons_succ, List.getD_cons_zero])
  · intro k hk hv
    interval_cases k
    · simp at hv
    · norm_num [List.getD_cons_succ, List.getD_cons_zero]
    · norm_num [List.getD_cons_succ, List.getD_cons_zero]
  · intro k hk hv hr
    interval_cases k
    · simp at hv
    · norm_num
    · norm_num

theorem pyTruthy_iff (v : Option ℚ) :
    pyTruthy v = true ↔ ∃ x, v = some x ∧ x ≠ 0 := by
  cases v with
  | none => simp [pyTruthy]
  | some x => simp [pyTruthy]

theorem coordsTruthy_iff (a : DeliveryAddress) :
    coordsTruthy a = true ↔
      (∃ x, a.latitude = some x ∧ x ≠ 0) ∧
        (∃ y, a.longitude = some y ∧ y ≠ 0) := by
  rw [coordsTruthy, Bool.and_eq_true, pyTruthy_iff, pyTruthy_iff]

/-- C2 counterexample: a stop whose latitude and longitude are both
present (`some 0` and `some 1`; latitude 0 is the equator) is placed in
the ungeocoded partition, because the filter of `main.py` line 185
tests Python truthiness of `a.latitude and a.longitude` and the float
`0.0` is falsy — presence of both coordinates does not suffice. -/
theorem routable_not_presence_based :
    zeroLatAddr.latitude ≠ none ∧ zeroLatAddr.longitude ≠ none ∧
    routable [zeroLatAddr] = [] ∧ unroutable [zeroLatAddr] = [zeroLatAddr] :=
  ⟨by simp [zeroLatAddr], by simp [zeroLatAddr], by decide, by decide⟩

/-- C2 amended: the Assembler places a stop in the routable (geocoded)
partition iff both its latitude and its longitude are truthy — present
with a nonzero value (Python truthiness); otherwise the stop goes to
the ungeocoded partition; and each partition is an order-preserving
sublist of the input. -/
theorem routable_iff_truthy (addresses : List DeliveryAddress)
    (a : DeliveryAddress) :
    (a ∈ routable addresses ↔ a ∈ addresses ∧
      ((∃ x, a.latitude = some x ∧ x ≠ 0) ∧
        (∃ y, a.longitude = some y ∧ y ≠ 0))) ∧
    (a ∈ unroutable addresses ↔ a ∈ addresses ∧
      ¬ ((∃ x, a.latitude = some x ∧ x ≠ 0) ∧
        (∃ y, a.longitude = some y ∧ y ≠ 0))) ∧
    List.Sublist (routable addresses) addresses ∧
    List.Sublist (unroutable addresses) addresses := by
  refine ⟨?_, ?_, List.filter_sublist addresses, List.filter_sublist addresses⟩
  · rw [routable, List.mem_filter, coordsTruthy_iff]
  · rw [unroutable, List.mem_filter]
    constructor
    · rintro ⟨hmem, hfalse⟩
      refine ⟨hmem, fun hcond => ?_⟩
      rw [← coordsTruthy_iff] at hcond
      rw [hcond] at hfalse
      exact absurd hfalse (by decide)
    · rintro ⟨hmem, hncond⟩
      refine ⟨hmem, ?_⟩
      cases hb : coordsTruthy a with
      | false => rfl
      | true => exact absurd (coordsTruthy_iff a |>.mp hb) hncond

/-- Witness for C2 amended, applying the partition characterization at
a concrete input. -/
theorem routable_iff_truthy_witness :
    List.Sublist (routable [zeroLatAddr, oneOneAddr]) [zeroLatAddr, oneOneAddr] :=
  (routable_iff_truthy [zeroLatAddr, oneOneAddr] oneOneAddr).2.2.1

/-- C6: the assembled final result is the constructed route over the
routable partition followed by the unroutable stops in their unmodified
relative order, paired with a total distance computed from the planned
(routable) segment only; when the routable partition is empty the
planned segment is empty and the total distance is 0.  (The partition
criterion itself is Python truthiness rather than presence; that
divergence is the subject of the C2 theorems.) -/
theorem planAndAssemble_spec (addresses : List DeliveryAddress) :
    ∃ planned,
      planAndAssemble addresses =
        some (planned ++ unroutable addresses, total_route_distance planned) ∧
      List.Perm planned (routable addresses) ∧
      (routable addresses = [] →
        planned = [] ∧ total_route_distance planned = 0) := by
  cases hemp : (routable addresses).isEmpty with
  | true =>
    have hnil : routable addresses = [] := List.isEmpty_iff.mp hemp
    refine ⟨[], ?_, by rw [hnil], fun _ => ⟨rfl, rfl⟩⟩
    simp only [planAndAssemble]
    rw [hemp]
    rfl
  | false =>
    have hne : routable addresses ≠ [] := by
      intro h
      rw [h] at hemp
      exact absurd hemp (by decide)
    have hlen : 0 < (routable addresses).length := List.length_pos.mpr hne
    obtain ⟨r, hr, hperm⟩ := nnr_some_perm (routable addresses) 0 (le_refl 0)
      (by exact_mod_cast hlen)
    refine ⟨r, ?_, hperm, fun h => absurd h hne⟩
    simp only [planAndAssemble]
    rw [hemp]
    simp only [Bool.false_eq_true, if_false]
    rw [hr]

/-- Witness for C6: a single ungeocoded stop yields the empty planned
segment, the stop appended, and total distance 0. -/
theorem planAndAssemble_spec_witness :
    planAndAssemble [noLatAddr] = some ([noLatAddr], 0) := by
  obtain ⟨p, h1, h2, h3⟩ := planAndAssemble_spec [noLatAddr]
  obtain ⟨hp, ht⟩ := h3 (by decide)
  subst hp
  rw [h1, ht, show unroutable [noLatAddr] = [noLatAddr] from by decide]
  rfl

theorem getD_map_range {α : Type} (f : ℕ → α) (n i : ℕ) (d : α) (h : i < n) :
    ((List.range n).map f).getD i d = f i := by
  simp [List.getD, List.getElem?_map, List.getElem?_range h]

theorem mGet_build (addresses : List DeliveryAddress) (i j : ℕ)
    (hi : i < addresses.length) (hj : j < addresses.length) :
    mGet (_build_distance_matrix addresses) i j =
      if i = j then 0
      else
        haversine (pyOr0 ((addresses.getD (min i j) default).latitude) : ℚ)
          (pyOr0 ((addresses.getD (min i j) default).longitude) : ℚ)
          (pyOr0 ((addresses.getD (max i j) default).latitude) : ℚ)
          (pyOr0 ((addresses.getD (max i j) default).longitude) : ℚ) := by
  unfold mGet
  simp only [_build_distance_matrix]
  rw [getD_map_range _ _ _ _ hi, getD_map_range _ _ _ _ hj]

theorem total_route_distance_eq_sum (addresses : List DeliveryAddress) :
    total_route_distance addresses =
      ((List.range (addresses.length - 1)).map (fun i =>
        haversine (pyOr0 (addresses.getD i default).latitude : ℚ)
          (pyOr0 (addresses.getD i default).longitude : ℚ)
          (pyOr0 (addresses.getD (i + 1) default).latitude : ℚ)
          (pyOr0 (addresses.getD (i + 1) default).longitude : ℚ))).sum := by
  unfold total_route_distance
  rw [foldl_add_eq_sum, zero_add]

theorem total_route_distance_cons_cons (a b : DeliveryAddress)
    (m : List DeliveryAddress) :
    total_route_distance (a :: b :: m) =
      haversine (pyOr0 a.latitude : ℚ) (pyOr0 a.longitude : ℚ)
        (pyOr0 b.latitude : ℚ) (pyOr0 b.longitude : ℚ) +
      total_route_distance (b :: m) := by
  rw [total_route_distance_eq_sum, total_route_distance_eq_sum]
  have h1 : (a :: b :: m).length - 1 = ((b :: m).length - 1) + 1 := by simp
  rw [h1, List.range_succ_eq_map, List.map_cons, List.sum_cons, List.map_map]
  congr 1

theorem total_eq_pairRec :
    ∀ addresses : List DeliveryAddress,
      total_route_distance addresses = pairRec addresses
  | [] => rfl
  | [_] => by simp [total_route_distance, pairRec]
  | a :: b :: m => by
    rw [total_route_distance_cons_cons, total_eq_pairRec (b :: m)]
    simp [pairRec]

theorem pairRec_eq_spec (coords : List (ℚ × ℚ)) :
    ∀ addresses : List DeliveryAddress,
      addresses.map (fun a => (a.latitude, a.longitude)) =
        coords.map (fun p => (some p.1, some p.2)) →
      pairRec addresses = specConsecutiveSum coords := by
  induction coords with
  | nil =>
    intro addresses h
    simp only [List.map_nil, List.map_eq_nil_iff] at h
    subst h
    rfl
  | cons p ps ih =>
    intro addresses h
    cases addresses with
    | nil => simp at h
    | cons a l =>
      simp only [List.map_cons, List.cons.injEq, Prod.mk.injEq] at h
      obtain ⟨⟨hla, hlo⟩, h2⟩ := h
      cases l with
      | nil =>
        cases ps with
        | nil => simp [pairRec, specConsecutiveSum]
        | cons q qs => simp at h2
      | cons b m =>
        cases ps with
        | nil => simp at h2
        | cons q qs =>
          have hrec := ih (b :: m) h2
          simp only [List.map_cons, List.cons.injEq, Prod.mk.injEq] at h2
          obtain ⟨⟨hb1, hb2⟩, -⟩ := h2
          simp only [pairRec, specConsecutiveSum]
          rw [hla, hlo, hb1, hb2, hrec]
          simp [pyOr0]

/-- C7: `total_route_distance` of a list of geocoded stops (the
hypothesis equates the coordinate projections of the input with a list
of present coordinate pairs) is the sum of the distance metric applied
to each consecutive pair, and is exactly 0 for lists of length 0 or 1;
the embedding is total, so there are no error conditions. -/
theorem total_route_distance_spec (addresses : List DeliveryAddress)
    (coords : List (ℚ × ℚ)) :
    (addresses.length ≤ 1 → total_route_distance addresses = 0) ∧
    (addresses.map (fun a => (a.latitude, a.longitude)) =
        coords.map (fun p => (some p.1, some p.2)) →
      total_route_distance addresses = specConsecutiveSum coords) := by
  constructor
  · intro h
    match addresses, h with
    | [], _ => rfl
    | [a], _ => simp [total_route_distance]
  · intro h
    rw [total_eq_pairRec]
    exact pairRec_eq_spec coords addresses h

/-- Witness for C7: the empty route has distance 0, and a concrete
two-stop geocoded route matches the consecutive-pair sum. -/
theorem total_route_distance_spec_witness :
    total_route_distance ([] : List DeliveryAddress) = 0 ∧
    total_route_distance [oneOneAddr, twoTwoAddr] =
      specConsecutiveSum [((1 : ℚ), (1 : ℚ)), ((2 : ℚ), (2 : ℚ))] :=
  ⟨(total_route_distance_spec [] []).1 (by norm_num),
    (total_route_distance_spec [oneOneAddr, twoTwoAddr]
      [((1 : ℚ), (1 : ℚ)), ((2 : ℚ), (2 : ℚ))]).2 rfl⟩

theorem haversine_eq (lat1 lon1 lat2 lon2 : ℝ) :
    haversine lat1 lon1 lat2 lon2 =
      _EARTH_RADIUS_KM * 2 *
        atan2
          (Real.sqrt (Real.sin ((radians lat2 - radians lat1) / 2) ^ 2 +
            Real.cos (radians lat1) * Real.cos (radians lat2) *
              Real.sin ((radians lon2 - radians lon1) / 2) ^ 2))
          (Real.sqrt (1 - (Real.sin ((radians lat2 - radians lat1) / 2) ^ 2 +
            Real.cos (radians lat1) * Real.cos (radians lat2) *
              Real.sin ((radians lon2 - radians lon1) / 2) ^ 2))) := rfl

theorem atan2_zero_one : atan2 0 1 = 0 := by
  unfold atan2
  rw [if_pos one_pos]
  norm_num [Real.arctan_zero]

/-- C8 amended (sufficiency direction, which the code satisfies): the
haversine distance between a coordinate pair and itself is exactly 0,
for every pair; zero distance does not conversely force identical
coordinate pairs (see the counterexample at the pole). -/
theorem haversine_self_eq_zero (lat lon : ℝ) : haversine lat lon lat lon = 0 := by
  rw [haversine_eq, sub_self, sub_self]
  rw [zero_div, Real.sin_zero]
  rw [show ((0 : ℝ) ^ 2 = 0) from by norm_num, mul_zero, add_zero]
  rw [Real.sqrt_zero, sub_zero, Real.sqrt_one, atan2_zero_one, mul_zero]

/-- Witness for C8 amended at a concrete coordinate pair. -/
theorem haversine_self_eq_zero_witness : haversine 3 4 3 4 = 0 :=
  haversine_self_eq_zero 3 4

/-- C8 counterexample: two distinct coordinate pairs at the north pole
(latitude 90, longitudes 0 and 10) have haversine distance exactly 0,
so zero distance does not imply identical (latitude, longitude) pairs. -/
theorem haversine_zero_distinct_pairs :
    haversine 90 0 90 10 = 0 ∧
      ((90 : ℝ), (0 : ℝ)) ≠ ((90 : ℝ), (10 : ℝ)) := by
  constructor
  · rw [haversine_eq, sub_self]
    rw [zero_div, Real.sin_zero]
    rw [show radians 90 = Real.pi / 2 from by unfold radians; ring]
    rw [Real.cos_pi_div_two]
    rw [show ((0 : ℝ) ^ 2 = 0) from by norm_num]
    rw [zero_mul, zero_mul, zero_add]
    rw [Real.sqrt_zero, sub_zero, Real.sqrt_one, atan2_zero_one, mul_zero]
  · intro h
    have h2 := congrArg Prod.snd h
    norm_num at h2

theorem haversine_zero_one_pos : 0 < haversine 0 1 1 1 := by
  rw [haversine_eq]
  have e1 : (radians 1 - radians 0) / 2 = Real.pi / 360 := by
    unfold radians; ring
  have e2 : (radians 1 - radians 1) / 2 = 0 := by rw [sub_self, zero_div]
  rw [e1, e2, Real.sin_zero]
  rw [show ((0 : ℝ) ^ 2 = 0) from by norm_num, mul_zero, add_zero]
  have hpi := Real.pi_pos
  have h0 : (0 : ℝ) < Real.pi / 360 := by positivity
  have hlt : Real.pi / 360 < Real.pi := by linarith
  have hs0 : 0 < Real.sin (Real.pi / 360) := Real.sin_pos_of_pos_of_lt_pi h0 hlt
  have hs1 : Real.sin (Real.pi / 360) < 1 := by
    have hx : Real.pi / 360 < 1 := by
      have := Real.pi_lt_d2
      linarith
    have hsx := Real.sin_lt h0
    linarith
  have hsq : Real.sqrt (Real.sin (Real.pi / 360) ^ 2) = Real.sin (Real.pi / 360) :=
    Real.sqrt_sq hs0.le
  have h1s : (0 : ℝ) < 1 - Real.sin (Real.pi / 360) ^ 2 := by nlinarith
  have hpos2 : 0 < Real.sqrt (1 - Real.sin (Real.pi / 360) ^ 2) :=
    Real.sqrt_pos.mpr h1s
  have hq : 0 < Real.sqrt (Real.sin (Real.pi / 360) ^ 2) /
      Real.sqrt (1 - Real.sin (Real.pi / 360) ^ 2) := by
    rw [hsq]
    exact div_pos hs0 hpos2
  have hatan : 0 < atan2 (Real.sqrt (Real.sin (Real.pi / 360) ^ 2))
      (Real.sqrt (1 - Real.sin (Real.pi / 360) ^ 2)) := by
    unfold atan2
    rw [if_pos hpos2]
    have harc := Real.arctan_strictMono hq
    rw [Real.arctan_zero] at harc
    exact harc
  have hc : (0 : ℝ) < _EARTH_RADIUS_KM * 2 := by norm_num [_EARTH_RADIUS_KM]
  exact mul_pos hc hatan

/-- C3 counterexample: on an input holding a stop with an absent
latitude, both the distance-matrix builder and the route-distance
aggregator call the distance metric with the default coordinate `0.0`
substituted for the absent value (the `or 0.0` fallback of
`route_planner.py` lines 28-33 and 85-90), and the resulting distance
is a strictly positive spurious great-circle length through the
latitude-0 point; the engine thus does compute distances using stops
that are not geocoded. -/
theorem distance_default_substitution :
    noLatAddr.latitude = none ∧
    total_route_distance [noLatAddr, oneOneAddr] = haversine 0 1 1 1 ∧
    mGet (_build_distance_matrix [noLatAddr, oneOneAddr]) 0 1 =
      haversine 0 1 1 1 ∧
    0 < haversine 0 1 1 1 := by
  refine ⟨rfl, ?_, ?_, haversine_zero_one_pos⟩
  · rw [total_eq_pairRec]
    simp [pairRec, noLatAddr, oneOneAddr, pyOr0]
  · rw [mGet_build [noLatAddr, oneOneAddr] 0 1 (by norm_num) (by norm_num)]
    norm_num [noLatAddr, oneOneAddr, pyOr0]

/-- C3 amended: the engine substitutes `0.0` exactly for absent
coordinates (see the counterexample); when every stop of the input has
both coordinates present, the `or 0.0` fallbacks never alter a value,
so every distance call in the engine uses the actual stored
coordinates: every distance-matrix entry is the metric applied to the
two stops' own coordinate values (first conjunct), and the
route-distance aggregator returns the consecutive-pair metric sum over
the stops' own coordinate values (second conjunct, with the list of
present coordinate pairs made explicit). -/
theorem matrix_exact_when_present (addresses : List DeliveryAddress)
    (h : ∀ a ∈ addresses, a.latitude ≠ none ∧ a.longitude ≠ none) :
    (∀ i j, i < j → j < addresses.length →
      ∃ xi yi xj yj,
        (addresses.getD i default).latitude = some xi ∧
        (addresses.getD i default).longitude = some yi ∧
        (addresses.getD j default).latitude = some xj ∧
        (addresses.getD j default).longitude = some yj ∧
        mGet (_build_distance_matrix addresses) i j =
          haversine (xi : ℚ) (yi : ℚ) (xj : ℚ) (yj : ℚ) ∧
        mGet (_build_distance_matrix addresses) j i =
          haversine (xi : ℚ) (yi : ℚ) (xj : ℚ) (yj : ℚ)) ∧
    (∃ coords : List (ℚ × ℚ),
      addresses.map (fun a => (a.latitude, a.longitude)) =
        coords.map (fun p => (some p.1, some p.2)) ∧
      total_route_distance addresses = specConsecutiveSum coords) := by
  constructor
  · intro i j hij hj
    have hi : i < addresses.length := lt_trans hij hj
    have hmi : addresses.getD i default ∈ addresses := by
      rw [List.getD_eq_getElem _ _ hi]
      exact List.getElem_mem hi
    have hmj : addresses.getD j default ∈ addresses := by
      rw [List.getD_eq_getElem _ _ hj]
      exact List.getElem_mem hj
    obtain ⟨hlat_i, hlon_i⟩ := h _ hmi
    obtain ⟨hlat_j, hlon_j⟩ := h _ hmj
    obtain ⟨xi, hxi⟩ := Option.ne_none_iff_exists'.mp hlat_i
    obtain ⟨yi, hyi⟩ := Option.ne_none_iff_exists'.mp hlon_i
    obtain ⟨xj, hxj⟩ := Option.ne_none_iff_exists'.mp hlat_j
    obtain ⟨yj, hyj⟩ := Option.ne_none_iff_exists'.mp hlon_j
    refine ⟨xi, yi, xj, yj, hxi, hyi, hxj, hyj, ?_, ?_⟩
    · rw [mGet_build addresses i j hi hj, if_neg (Nat.ne_of_lt hij)]
      rw [min_eq_left (le_of_lt hij), max_eq_right (le_of_lt hij)]
      rw [hxi, hyi, hxj, hyj]
      rfl
    · rw [mGet_build addresses j i hj hi, if_neg (Nat.ne_of_gt hij)]
      rw [min_eq_right (le_of_lt hij), max_eq_left (le_of_lt hij)]
      rw [hxi, hyi, hxj, hyj]
      rfl
  · have hmap : addresses.map (fun a => (a.latitude, a.longitude)) =
        (addresses.map (fun a => (pyOr0 a.latitude, pyOr0 a.longitude))).map
          (fun p => (some p.1, some p.2)) := by
      rw [List.map_map]
      apply List.map_congr_left
      intro a ha
      obtain ⟨hlat, hlon⟩ := h a ha
      obtain ⟨x, hx⟩ := Option.ne_none_iff_exists'.mp hlat
      obtain ⟨y, hy⟩ := Option.ne_none_iff_exists'.mp hlon
      simp [Function.comp, hx, hy, pyOr0]
    exact ⟨addresses.map (fun a => (pyOr0 a.latitude, pyOr0 a.longitude)), hmap,
      by rw [total_eq_pairRec]; exact pairRec_eq_spec _ addresses hmap⟩

/-- Witness for C3 amended at a concrete all-present input (one stop
with the present-but-zero latitude, exercising that a present `0.0` is
also passed through unchanged), instantiating both the matrix-entry
conjunct at `(0, 1)` and the aggregator conjunct. -/
theorem matrix_exact_when_present_witness :
    (∃ xi yi xj yj,
      (([oneOneAddr, zeroLatAddr] : List DeliveryAddress).getD 0
          default).latitude = some xi ∧
      (([oneOneAddr, zeroLatAddr] : List DeliveryAddress).getD 0
          default).longitude = some yi ∧
      (([oneOneAddr, zeroLatAddr] : List DeliveryAddress).getD 1
          default).latitude = some xj ∧
      (([oneOneAddr, zeroLatAddr] : List DeliveryAddress).getD 1
          default).longitude = some yj ∧
      mGet (_build_distance_matrix [oneOneAddr, zeroLatAddr]) 0 1 =
        haversine (xi : ℚ) (yi : ℚ) (xj : ℚ) (yj : ℚ) ∧
      mGet (_build_distance_matrix [oneOneAddr, zeroLatAddr]) 1 0 =
        haversine (xi : ℚ) (yi : ℚ) (xj : ℚ) (yj : ℚ)) ∧
    (∃ coords : List (ℚ × ℚ),
      ([oneOneAddr, zeroLatAddr] : List DeliveryAddress).map
          (fun a => (a.latitude, a.longitude)) =
        coords.map (fun p => (some p.1, some p.2)) ∧
      total_route_distance [oneOneAddr, zeroLatAddr] =
        specConsecutiveSum coords) :=
  ⟨(matrix_exact_when_present [oneOneAddr, zeroLatAddr] (by decide)).1 0 1
      (by norm_num) (by norm_num),
    (matrix_exact_when_present [oneOneAddr, zeroLatAddr] (by decide)).2⟩
